import Mathlib

/-!
Shallow embedding of the pngme PNG chunk core (src/chunk_type.rs,
src/chunk.rs, and the container operations used by src/commands.rs).

Rust `u8`/`u32` values are modelled as `Nat` with explicit `% 2^32`
truncation where the code casts, byte buffers as `List Nat`, and fallible
Rust code as an `Outcome` value that separates returned errors (`err`)
from panics/aborts (`panic`, produced by `unwrap`, `assert_eq!` and
out-of-range slice indexing).
-/

namespace Pngme

/-- Result of running a fallible Rust function: normal return, returned
error, or process abort (panic). -/
inductive Outcome (ε α : Type) where
  | ok (a : α)
  | err (e : ε)
  | panic
deriving DecidableEq, Repr

/-- The error kinds of the program, following §7 of the spec: boxed error
values in the source map to this closed enumeration.  `truncatedInput` is
the `TryFromSliceError` produced by a failed slice-to-`[u8;4]` conversion. -/
inductive PngError where
  | invalidChunkType
  | invalidCrc
  | truncatedInput
  | utf8DecodeError
  | chunkNotFound
deriving DecidableEq, Repr

/-! ## CRC-32/ISO-HDLC

`chunk.rs` uses `Crc::<u32>::new(&CRC_32_ISO_HDLC)` from the `crc` crate:
reflected CRC-32 with polynomial 0x04C11DB7 (reflected 0xEDB88320),
initial value 0xFFFFFFFF and final xor 0xFFFFFFFF.  The table-driven
routine of the crate is embedded as the equivalent bit-at-a-time
algorithm. -/

/-- Reflected CRC-32 polynomial. -/
def CRC_POLY : Nat := 0xEDB88320

/-- One bit step of the reflected CRC-32 algorithm on a 32-bit state:
shift right and xor the polynomial exactly when the low bit was set
(`c % 2` selects the polynomial mask). -/
def crcStep (c : Nat) : Nat :=
  (c / 2) ^^^ (c % 2 * CRC_POLY)

/-- Eight bit steps: one processed byte worth of shifting. -/
def crcStep8 (c : Nat) : Nat :=
  crcStep (crcStep (crcStep (crcStep (crcStep (crcStep (crcStep (crcStep c)))))))

/-- Absorb one byte into the CRC state. -/
def crcUpdate (c b : Nat) : Nat := crcStep8 (c ^^^ b)

/-- `ISO_3309.checksum(data)` of `chunk.rs`: CRC-32/ISO-HDLC of a byte
sequence. -/
def crc32 (data : List Nat) : Nat :=
  (data.foldl crcUpdate 0xFFFFFFFF) ^^^ 0xFFFFFFFF

/-! ## ChunkType (src/chunk_type.rs) -/

/-- 4 byte ChunkType field of a chunk, `struct ChunkType(u8, u8, u8, u8)`. -/
structure ChunkType where
  b0 : Nat
  b1 : Nat
  b2 : Nat
  b3 : Nat
deriving DecidableEq, Repr

namespace ChunkType

/-- `is_valid_b`: the byte is an ASCII letter. -/
def is_valid_b (val : Nat) : Bool :=
  (65 ≤ val && val ≤ 90) || (97 ≤ val && val ≤ 122)

/-- `get_fifth_bit`: bit 5 of the byte, as a Bool. -/
def get_fifth_bit (val : Nat) : Bool :=
  ((val >>> 5) &&& 1) != 0

/-- `has_valid_bytes` on the 4 bytes of a `[u8;4]` value. -/
def has_valid_bytes (v0 v1 v2 v3 : Nat) : Bool :=
  is_valid_b v0 && is_valid_b v1 && is_valid_b v2 && is_valid_b v3

/-- `bytes()`: the byte representation of the ChunkType. -/
def bytes (ct : ChunkType) : List Nat :=
  [ct.b0, ct.b1, ct.b2, ct.b3]

/-- `is_critical`. -/
def is_critical (ct : ChunkType) : Bool :=
  !(get_fifth_bit ct.b0)

/-- `is_public`. -/
def is_public (ct : ChunkType) : Bool :=
  !(get_fifth_bit ct.b1)

/-- `is_reserved_bit_valid`. -/
def is_reserved_bit_valid (ct : ChunkType) : Bool :=
  !(get_fifth_bit ct.b2)

/-- `is_safe_to_copy`. -/
def is_safe_to_copy (ct : ChunkType) : Bool :=
  get_fifth_bit ct.b3

/-- `is_valid`. -/
def is_valid (ct : ChunkType) : Bool :=
  has_valid_bytes ct.b0 ct.b1 ct.b2 ct.b3 && ct.is_reserved_bit_valid

/-- `impl TryFrom<[u8; 4]> for ChunkType` (`fromBytes` in the spec). -/
def tryFrom (v0 v1 v2 v3 : Nat) : Outcome PngError ChunkType :=
  if has_valid_bytes v0 v1 v2 v3 then
    Outcome.ok ⟨v0, v1, v2, v3⟩
  else
    Outcome.err PngError.invalidChunkType

/-- `impl str::FromStr for ChunkType` (`fromText` in the spec) on the UTF-8
bytes of the input string.  `assert_eq!(bytes.len(), 4)` panics when the
string is not exactly 4 bytes long. -/
def from_str : List Nat → Outcome PngError ChunkType
  | [b0, b1, b2, b3] => tryFrom b0 b1 b2 b3
  | _ => Outcome.panic

end ChunkType

/-! ## UTF-8 (std `str::from_utf8`)

Model of the standard library's UTF-8 validation/decoding used by
`data_as_string` and the two `Display` impls: RFC 3629 well-formedness,
rejecting overlong forms, surrogates and code points above U+10FFFF.
Decodes a byte list to the list of code points. -/

/-- The RFC 3629 UTF-8 acceptor/decoder as a byte automaton.  `need` is
the number of continuation bytes still expected, `acc` the partial code
point, and `lo`/`hi` the admissible range of the next continuation byte
(tight ranges after `E0`, `ED`, `F0`, `F4` reject overlong forms,
surrogates and code points above U+10FFFF). -/
def utf8Aux : List Nat → Nat → Nat → Nat → Nat → Option (List Nat)
  | [], 0, _, _, _ => some []
  | [], _ + 1, _, _, _ => none
  | b :: rest, 0, _, _, _ =>
    if b ≤ 0x7F then (utf8Aux rest 0 0 0 0).map (fun cs => b :: cs)
    else if 0xC2 ≤ b && b ≤ 0xDF then utf8Aux rest 1 (b - 0xC0) 0x80 0xBF
    else if b = 0xE0 then utf8Aux rest 2 0 0xA0 0xBF
    else if 0xE1 ≤ b && b ≤ 0xEC then utf8Aux rest 2 (b - 0xE0) 0x80 0xBF
    else if b = 0xED then utf8Aux rest 2 13 0x80 0x9F
    else if 0xEE ≤ b && b ≤ 0xEF then utf8Aux rest 2 (b - 0xE0) 0x80 0xBF
    else if b = 0xF0 then utf8Aux rest 3 0 0x90 0xBF
    else if 0xF1 ≤ b && b ≤ 0xF3 then utf8Aux rest 3 (b - 0xF0) 0x80 0xBF
    else if b = 0xF4 then utf8Aux rest 3 4 0x80 0x8F
    else none
  | b :: rest, need + 1, acc, lo, hi =>
    if lo ≤ b && b ≤ hi then
      match need with
      | 0 => (utf8Aux rest 0 0 0 0).map (fun cs => (acc * 64 + (b - 0x80)) :: cs)
      | n + 1 => utf8Aux rest (n + 1) (acc * 64 + (b - 0x80)) 0x80 0xBF
    else none

/-- Decode a UTF-8 byte sequence to its code points; `none` on any
ill-formed input (the `Err` of `str::from_utf8`). -/
def utf8Decode (l : List Nat) : Option (List Nat) :=
  utf8Aux l 0 0 0 0

/-- `to_string` of a ChunkType (its `Display` impl):
`str::from_utf8(bytes).unwrap()` — panics if the bytes are not UTF-8.
Called `toText` in the spec.  Returns the code points of the string. -/
def ChunkType.toText (ct : ChunkType) : Outcome PngError (List Nat) :=
  match utf8Decode ct.bytes with
  | some cps => Outcome.ok cps
  | none => Outcome.panic

/-! ## Chunk (src/chunk.rs) -/

/-- `u32::to_be_bytes`. -/
def u32ToBeBytes (n : Nat) : List Nat :=
  [n / 2 ^ 24 % 256, n / 2 ^ 16 % 256, n / 2 ^ 8 % 256, n % 256]

/-- `u32::from_be_bytes` on four `u8` values. -/
def u32FromBeBytes (a b c d : Nat) : Nat :=
  ((a * 256 + b) * 256 + c) * 256 + d

/-- `<&[u8] as TryInto<[u8;4]>>::try_into`: succeeds exactly when the
slice has length 4; a failure is a `TryFromSliceError`
(`truncatedInput`). -/
def sliceToArray4 : List Nat → Outcome PngError (Nat × Nat × Nat × Nat)
  | [a, b, c, d] => Outcome.ok (a, b, c, d)
  | _ => Outcome.err PngError.truncatedInput

/-- `struct Chunk` of src/chunk.rs (`ChunkRecord` in the spec). -/
structure Chunk where
  length : Nat
  chunk_type : ChunkType
  data : List Nat
  crc : Nat
deriving DecidableEq, Repr

namespace Chunk

/-- `Chunk::is_valid_crc`: recompute the checksum of type bytes ++ data
and compare with the stored value. -/
def is_valid_crc (ct : ChunkType) (data : List Nat) (crc : Nat) : Bool :=
  crc32 (ct.bytes ++ data) == crc

/-- `Chunk::new` (`create` in the spec).  `data.len() as u32` truncates
the length to 32 bits. -/
def new (ct : ChunkType) (data : List Nat) : Chunk :=
  { length := data.length % 2 ^ 32
    chunk_type := ct
    data := data
    crc := crc32 (ct.bytes ++ data) }

/-- `Chunk::as_bytes` (`serialize` in the spec):
`length (4B BE) ++ type (4B) ++ data ++ crc (4B BE)`. -/
def as_bytes (c : Chunk) : List Nat :=
  u32ToBeBytes c.length ++ c.chunk_type.bytes ++ c.data ++ u32ToBeBytes c.crc

/-- `Chunk::data_as_string`: UTF-8 decode of the payload, as the list of
code points; a decode failure is returned as an error. -/
def data_as_string (c : Chunk) : Outcome PngError (List Nat) :=
  match utf8Decode c.data with
  | some cps => Outcome.ok cps
  | none => Outcome.err PngError.utf8DecodeError

/-- `impl fmt::Display for Chunk`: `self.data_as_string().unwrap()` —
panics when the payload is not valid UTF-8. -/
def display (c : Chunk) : Outcome PngError (List Nat) :=
  match c.data_as_string with
  | Outcome.ok cps => Outcome.ok cps
  | _ => Outcome.panic

/-- `impl TryFrom<&[u8]> for Chunk` (`parse` in the spec), with the
source's slice expressions `value[..4]`, `value[4..8]`,
`value[8..8+length]`, `value[(8+length)..]` modelled by `take`/`drop`
guarded by the panics Rust range indexing performs when the upper bound
exceeds the slice length. -/
def try_from (value : List Nat) : Outcome PngError Chunk :=
  if value.length < 4 then Outcome.panic
  else
    match sliceToArray4 (value.take 4) with
    | Outcome.err e => Outcome.err e
    | Outcome.panic => Outcome.panic
    | Outcome.ok (l0, l1, l2, l3) =>
      let length := u32FromBeBytes l0 l1 l2 l3
      if value.length < 8 then Outcome.panic
      else
        match sliceToArray4 ((value.drop 4).take 4) with
        | Outcome.err e => Outcome.err e
        | Outcome.panic => Outcome.panic
        | Outcome.ok (t0, t1, t2, t3) =>
          match ChunkType.tryFrom t0 t1 t2 t3 with
          | Outcome.err e => Outcome.err e
          | Outcome.panic => Outcome.panic
          | Outcome.ok ct =>
            if value.length < 8 + length then Outcome.panic
            else
              let data := (value.drop 8).take length
              match sliceToArray4 (value.drop (8 + length)) with
              | Outcome.err e => Outcome.err e
              | Outcome.panic => Outcome.panic
              | Outcome.ok (c0, c1, c2, c3) =>
                let crc := u32FromBeBytes c0 c1 c2 c3
                if is_valid_crc ct data crc then
                  Outcome.ok { length := length, chunk_type := ct, data := data, crc := crc }
                else Outcome.err PngError.invalidCrc

end Chunk

/-! ## Png container -/

/-- Modelled from the spec: the `Png` struct of png.rs is referenced by
src/commands.rs but png.rs is absent from the provided source.  Per §3
and §4.3 it is the ordered sequence of chunk records (the fixed 8-byte
signature adds nothing to the append/terminator claims). -/
structure Png where
  chunks : List Chunk
deriving DecidableEq, Repr

/-- Modelled from the spec: `Png::append_chunk` "inserts `record`
immediately before the last element (assumed to be the terminator)". -/
def Png.append_chunk (p : Png) (c : Chunk) : Png :=
  { chunks :=
      p.chunks.take (p.chunks.length - 1) ++ [c] ++ p.chunks.drop (p.chunks.length - 1) }

/-! ## Byte-level arithmetic lemmas -/

theorem u32FromBeBytes_u32ToBeBytes {n : Nat} (h : n < 2 ^ 32) :
    u32FromBeBytes (n / 2 ^ 24 % 256) (n / 2 ^ 16 % 256) (n / 2 ^ 8 % 256) (n % 256) = n := by
  unfold u32FromBeBytes
  omega

theorem u32ToBeBytes_u32FromBeBytes {a b c d : Nat}
    (ha : a < 256) (hb : b < 256) (hc : c < 256) (hd : d < 256) :
    u32ToBeBytes (u32FromBeBytes a b c d) = [a, b, c, d] := by
  simp only [u32ToBeBytes, u32FromBeBytes, List.cons.injEq, and_true]
  omega

theorem u32FromBeBytes_lt {a b c d : Nat}
    (ha : a < 256) (hb : b < 256) (hc : c < 256) (hd : d < 256) :
    u32FromBeBytes a b c d < 2 ^ 32 := by
  unfold u32FromBeBytes
  omega

/-! ## CRC state lemmas: the bit step is bounded and injective on 32-bit
states, hence distinct messages of equal length keep distinct CRCs. -/

theorem xor_right_cancel {x y p : Nat} (h : x ^^^ p = y ^^^ p) : x = y := by
  have h2 := congrArg (fun z => z ^^^ p) h
  simpa [Nat.xor_assoc] using h2

theorem xor_left_cancel {x y p : Nat} (h : p ^^^ x = p ^^^ y) : x = y := by
  rw [Nat.xor_comm p x, Nat.xor_comm p y] at h
  exact xor_right_cancel h

theorem xor_poly_high {x : Nat} (hx : x < 2 ^ 31) : 2 ^ 31 ≤ x ^^^ CRC_POLY := by
  have hb : Nat.testBit (x ^^^ CRC_POLY) 31 = true := by
    rw [Nat.testBit_xor, Nat.testBit_lt_two_pow hx]
    decide
  exact Nat.testBit_implies_ge hb

theorem crcStep_even {c : Nat} (h : c % 2 = 0) : crcStep c = c / 2 := by
  unfold crcStep
  rw [h]
  simp

theorem crcStep_odd {c : Nat} (h : c % 2 = 1) : crcStep c = c / 2 ^^^ CRC_POLY := by
  unfold crcStep
  rw [h]
  simp

theorem crcStep_lt {c : Nat} (h : c < 2 ^ 32) : crcStep c < 2 ^ 32 := by
  rcases Nat.mod_two_eq_zero_or_one c with h2 | h2
  · rw [crcStep_even h2]
    omega
  · rw [crcStep_odd h2]
    exact Nat.xor_lt_two_pow (by omega) (by decide)

theorem crcStep_inj {a b : Nat} (ha : a < 2 ^ 32) (hb : b < 2 ^ 32)
    (h : crcStep a = crcStep b) : a = b := by
  rcases Nat.mod_two_eq_zero_or_one a with h1 | h1 <;>
    rcases Nat.mod_two_eq_zero_or_one b with h2 | h2
  · rw [crcStep_even h1, crcStep_even h2] at h
    omega
  · rw [crcStep_even h1, crcStep_odd h2] at h
    exfalso
    have hhi : 2 ^ 31 ≤ b / 2 ^^^ CRC_POLY := xor_poly_high (by omega)
    omega
  · rw [crcStep_odd h1, crcStep_even h2] at h
    exfalso
    have hhi : 2 ^ 31 ≤ a / 2 ^^^ CRC_POLY := xor_poly_high (by omega)
    omega
  · rw [crcStep_odd h1, crcStep_odd h2] at h
    have := xor_right_cancel h
    omega

theorem crcStep8_lt {c : Nat} (h : c < 2 ^ 32) : crcStep8 c < 2 ^ 32 := by
  unfold crcStep8
  exact crcStep_lt (crcStep_lt (crcStep_lt (crcStep_lt (crcStep_lt (crcStep_lt
    (crcStep_lt (crcStep_lt h)))))))

theorem crcStep8_inj {a b : Nat} (ha : a < 2 ^ 32) (hb : b < 2 ^ 32)
    (h : crcStep8 a = crcStep8 b) : a = b := by
  unfold crcStep8 at h
  have l1 := fun {x : Nat} (hx : x < 2 ^ 32) => crcStep_lt hx
  apply crcStep_inj ha hb
  apply crcStep_inj (l1 ha) (l1 hb)
  apply crcStep_inj (l1 (l1 ha)) (l1 (l1 hb))
  apply crcStep_inj (l1 (l1 (l1 ha))) (l1 (l1 (l1 hb)))
  apply crcStep_inj (l1 (l1 (l1 (l1 ha)))) (l1 (l1 (l1 (l1 hb))))
  apply crcStep_inj (l1 (l1 (l1 (l1 (l1 ha))))) (l1 (l1 (l1 (l1 (l1 hb)))))
  apply crcStep_inj (l1 (l1 (l1 (l1 (l1 (l1 ha)))))) (l1 (l1 (l1 (l1 (l1 (l1 hb))))))
  apply crcStep_inj (l1 (l1 (l1 (l1 (l1 (l1 (l1 ha)))))))
    (l1 (l1 (l1 (l1 (l1 (l1 (l1 hb)))))))
  exact h

theorem crcUpdate_lt {c b : Nat} (hc : c < 2 ^ 32) (hb : b < 2 ^ 32) :
    crcUpdate c b < 2 ^ 32 :=
  crcStep8_lt (Nat.xor_lt_two_pow hc hb)

theorem crcUpdate_inj {c1 c2 b : Nat} (h1 : c1 < 2 ^ 32) (h2 : c2 < 2 ^ 32)
    (hb : b < 2 ^ 32) (h : crcUpdate c1 b = crcUpdate c2 b) : c1 = c2 := by
  unfold crcUpdate at h
  exact xor_right_cancel
    (crcStep8_inj (Nat.xor_lt_two_pow h1 hb) (Nat.xor_lt_two_pow h2 hb) h)

theorem foldl_crcUpdate_lt :
    ∀ (l : List Nat) (c : Nat), (∀ x ∈ l, x < 2 ^ 32) → c < 2 ^ 32 →
      l.foldl crcUpdate c < 2 ^ 32 := by
  intro l
  induction l with
  | nil => intro c _ hc; simpa using hc
  | cons x xs ih =>
    intro c hl hc
    simp only [List.foldl_cons]
    exact ih _ (fun y hy => hl y (List.mem_cons_of_mem _ hy))
      (crcUpdate_lt hc (hl x (List.mem_cons_self x xs)))

theorem foldl_crcUpdate_ne :
    ∀ (l : List Nat) (c1 c2 : Nat), (∀ x ∈ l, x < 2 ^ 32) → c1 < 2 ^ 32 → c2 < 2 ^ 32 →
      c1 ≠ c2 → l.foldl crcUpdate c1 ≠ l.foldl crcUpdate c2 := by
  intro l
  induction l with
  | nil => intro c1 c2 _ _ _ hne; simpa using hne
  | cons x xs ih =>
    intro c1 c2 hl h1 h2 hne
    simp only [List.foldl_cons]
    have hx : x < 2 ^ 32 := hl x (List.mem_cons_self x xs)
    exact ih _ _ (fun y hy => hl y (List.mem_cons_of_mem _ hy))
      (crcUpdate_lt h1 hx) (crcUpdate_lt h2 hx)
      (fun h => hne (crcUpdate_inj h1 h2 hx h))

theorem crc32_lt {l : List Nat} (hl : ∀ x ∈ l, x < 2 ^ 32) : crc32 l < 2 ^ 32 := by
  unfold crc32
  exact Nat.xor_lt_two_pow (foldl_crcUpdate_lt l _ hl (by decide)) (by decide)

/-- Two byte sequences differing in exactly one position have distinct
CRC-32 checksums. -/
theorem crc32_ne_of_single_diff {pre suf : List Nat} {x y : Nat}
    (hpre : ∀ b ∈ pre, b < 2 ^ 32) (hsuf : ∀ b ∈ suf, b < 2 ^ 32)
    (hx : x < 2 ^ 32) (hy : y < 2 ^ 32) (hne : x ≠ y) :
    crc32 (pre ++ x :: suf) ≠ crc32 (pre ++ y :: suf) := by
  unfold crc32
  intro h
  have hs : List.foldl crcUpdate 0xFFFFFFFF pre < 2 ^ 32 :=
    foldl_crcUpdate_lt pre _ hpre (by decide)
  have hbody := xor_right_cancel h
  rw [List.foldl_append, List.foldl_append, List.foldl_cons, List.foldl_cons] at hbody
  exact foldl_crcUpdate_ne suf _ _ hsuf
    (crcUpdate_lt hs hx) (crcUpdate_lt hs hy)
    (fun hupd => hne (xor_left_cancel (crcStep8_inj
      (Nat.xor_lt_two_pow hs hx) (Nat.xor_lt_two_pow hs hy) hupd))) hbody

/-! ## ChunkType and UTF-8 helper lemmas -/

theorem is_valid_b_bounds {v : Nat} (h : ChunkType.is_valid_b v = true) :
    65 ≤ v ∧ v ≤ 122 := by
  simp [ChunkType.is_valid_b] at h
  omega

theorem has_valid_bytes_bounds {v0 v1 v2 v3 : Nat}
    (h : ChunkType.has_valid_bytes v0 v1 v2 v3 = true) :
    (65 ≤ v0 ∧ v0 ≤ 122) ∧ (65 ≤ v1 ∧ v1 ≤ 122) ∧
      (65 ≤ v2 ∧ v2 ≤ 122) ∧ (65 ≤ v3 ∧ v3 ≤ 122) := by
  simp only [ChunkType.has_valid_bytes, Bool.and_eq_true] at h
  exact ⟨is_valid_b_bounds h.1.1.1, is_valid_b_bounds h.1.1.2,
    is_valid_b_bounds h.1.2, is_valid_b_bounds h.2⟩

theorem tryFrom_ok_iff {v0 v1 v2 v3 : Nat} {ct : ChunkType} :
    ChunkType.tryFrom v0 v1 v2 v3 = Outcome.ok ct ↔
      ChunkType.has_valid_bytes v0 v1 v2 v3 = true ∧ ct = ⟨v0, v1, v2, v3⟩ := by
  unfold ChunkType.tryFrom
  split
  · rename_i h
    simp [h, eq_comm]
  · rename_i h
    simp [h]

theorem utf8Decode_ascii :
    ∀ (l : List Nat), (∀ b ∈ l, b ≤ 127) → utf8Decode l = some l := by
  intro l
  induction l with
  | nil => intro _; rfl
  | cons b rest ih =>
    intro h
    have hb : b ≤ 127 := h b (List.mem_cons_self b rest)
    have hrest := ih (fun y hy => h y (List.mem_cons_of_mem _ hy))
    unfold utf8Decode at hrest ⊢
    simp only [utf8Aux, hb, if_pos, hrest]
    rfl

/-! ## Slice conversion lemmas -/

theorem sliceToArray4_ok_iff {l : List Nat} {t : Nat × Nat × Nat × Nat} :
    sliceToArray4 l = Outcome.ok t ↔ l = [t.1, t.2.1, t.2.2.1, t.2.2.2] := by
  obtain ⟨t1, t2, t3, t4⟩ := t
  rcases l with _ | ⟨a, _ | ⟨b, _ | ⟨c, _ | ⟨d, _ | ⟨e, r⟩⟩⟩⟩⟩ <;>
    simp [sliceToArray4]

theorem sliceToArray4_len_ne {l : List Nat} (h : l.length ≠ 4) :
    sliceToArray4 l = Outcome.err PngError.truncatedInput := by
  rcases l with _ | ⟨a, _ | ⟨b, _ | ⟨c, _ | ⟨d, _ | ⟨e, r⟩⟩⟩⟩⟩ <;>
    simp_all [sliceToArray4]

/-! ## Parsing a well-formed buffer

A buffer whose 4-byte big-endian length field equals the payload length
and whose type bytes are valid letters drives `Chunk.try_from` into the
final CRC comparison: the parse result is decided exactly by the
checksum. -/

theorem try_from_wellformed {t0 t1 t2 t3 : Nat} {d : List Nat} {c0 c1 c2 c3 : Nat}
    (hv : ChunkType.has_valid_bytes t0 t1 t2 t3 = true)
    (hlen : d.length < 2 ^ 32) :
    Chunk.try_from (u32ToBeBytes d.length ++ ([t0, t1, t2, t3] ++ (d ++ [c0, c1, c2, c3]))) =
      (if crc32 ([t0, t1, t2, t3] ++ d) = u32FromBeBytes c0 c1 c2 c3 then
        Outcome.ok ⟨d.length, ⟨t0, t1, t2, t3⟩, d, u32FromBeBytes c0 c1 c2 c3⟩
      else Outcome.err PngError.invalidCrc) := by
  have hL : (u32ToBeBytes d.length).length = 4 := rfl
  set value := u32ToBeBytes d.length ++ ([t0, t1, t2, t3] ++ (d ++ [c0, c1, c2, c3]))
    with hvalue
  have hlenv : value.length = d.length + 12 := by
    simp only [hvalue, List.length_append, hL, List.length_cons, List.length_nil]
    omega
  have htake4 : value.take 4 = u32ToBeBytes d.length := List.take_left' hL
  have hdrop4 : value.drop 4 = [t0, t1, t2, t3] ++ (d ++ [c0, c1, c2, c3]) :=
    List.drop_left' hL
  have htype : (value.drop 4).take 4 = [t0, t1, t2, t3] := by
    rw [hdrop4]
    exact List.take_left' rfl
  have hdrop8 : value.drop 8 = d ++ [c0, c1, c2, c3] := by
    have : value.drop 8 = (value.drop 4).drop 4 := by
      rw [List.drop_drop]
    rw [this, hdrop4]
    exact List.drop_left' rfl
  have hfield : u32FromBeBytes (d.length / 2 ^ 24 % 256) (d.length / 2 ^ 16 % 256)
      (d.length / 2 ^ 8 % 256) (d.length % 256) = d.length :=
    u32FromBeBytes_u32ToBeBytes hlen
  have hdata : (value.drop 8).take d.length = d := by
    rw [hdrop8]
    exact List.take_left' rfl
  have htail : value.drop (8 + d.length) = [c0, c1, c2, c3] := by
    have h8 : value.drop (8 + d.length) = (value.drop 8).drop d.length := by
      rw [List.drop_drop]
    rw [h8, hdrop8]
    exact List.drop_left' rfl
  unfold Chunk.try_from
  rw [hlenv, htake4]
  rw [show sliceToArray4 (u32ToBeBytes d.length) =
    Outcome.ok (d.length / 2 ^ 24 % 256, d.length / 2 ^ 16 % 256,
      d.length / 2 ^ 8 % 256, d.length % 256) from rfl]
  simp only [if_neg (show ¬(d.length + 12 < 4) by omega),
    if_neg (show ¬(d.length + 12 < 8) by omega), hfield, htype]
  rw [show sliceToArray4 [t0, t1, t2, t3] = Outcome.ok (t0, t1, t2, t3) from rfl]
  simp only [ChunkType.tryFrom, hv, if_true, if_neg (show ¬(d.length + 12 < 8 + d.length) by omega),
    hdata, htail]
  rw [show sliceToArray4 [c0, c1, c2, c3] = Outcome.ok (c0, c1, c2, c3) from rfl]
  simp only [Chunk.is_valid_crc, ChunkType.bytes]
  split
  · rename_i hcrc
    rw [if_pos (by simpa [beq_iff_eq] using hcrc)]
  · rename_i hcrc
    rw [if_neg (by simpa [beq_iff_eq] using hcrc)]

/-- Parsing a buffer that holds the 8-byte header, valid type bytes and
the declared payload, but whose remaining trailer is not exactly 4 bytes,
fails with the slice-conversion error (`truncatedInput`). -/
theorem try_from_trailer_mismatch {l0 l1 l2 l3 t0 t1 t2 t3 : Nat} {rest : List Nat}
    (hv : ChunkType.has_valid_bytes t0 t1 t2 t3 = true)
    (hfit : u32FromBeBytes l0 l1 l2 l3 ≤ rest.length)
    (hne : rest.length ≠ u32FromBeBytes l0 l1 l2 l3 + 4) :
    Chunk.try_from (l0 :: l1 :: l2 :: l3 :: t0 :: t1 :: t2 :: t3 :: rest) =
      Outcome.err PngError.truncatedInput := by
  set value := l0 :: l1 :: l2 :: l3 :: t0 :: t1 :: t2 :: t3 :: rest with hvalue
  set L := u32FromBeBytes l0 l1 l2 l3 with hLdef
  have hlenv : value.length = rest.length + 8 := by
    simp [hvalue, List.length_cons]
  have htail : value.drop (8 + L) = rest.drop L := by
    have h1 : value.drop 8 = rest := rfl
    rw [← List.drop_drop, h1]
  unfold Chunk.try_from
  rw [hlenv]
  rw [show sliceToArray4 (value.take 4) = Outcome.ok (l0, l1, l2, l3) from rfl]
  simp only [if_neg (show ¬(rest.length + 8 < 4) by omega),
    if_neg (show ¬(rest.length + 8 < 8) by omega)]
  rw [show (value.drop 4).take 4 = [t0, t1, t2, t3] from rfl]
  rw [show sliceToArray4 [t0, t1, t2, t3] = Outcome.ok (t0, t1, t2, t3) from rfl]
  simp only [ChunkType.tryFrom, hv, if_true, ← hLdef,
    if_neg (show ¬(rest.length + 8 < 8 + L) by omega)]
  rw [htail, sliceToArray4_len_ne (by simp only [List.length_drop]; omega)]

theorem cons8_append (a0 a1 a2 a3 b0 b1 b2 b3 : Nat) (l1 l2 : List Nat) :
    (([a0, a1, a2, a3] ++ [b0, b1, b2, b3]) ++ l1) ++ l2 =
      a0 :: a1 :: a2 :: a3 :: b0 :: b1 :: b2 :: b3 :: (l1 ++ l2) := by
  simp

theorem chunk_new_as_bytes (ct : ChunkType) (d : List Nat) :
    (Chunk.new ct d).as_bytes =
      u32ToBeBytes (d.length % 2 ^ 32) ++ ct.bytes ++ d ++
        u32ToBeBytes (crc32 (ct.bytes ++ d)) := rfl

/-- A successful parse consumed the whole buffer in the shape
`length ++ type ++ data ++ crc`, so re-serializing the record
reproduces the input bytes exactly. -/
theorem try_from_ok_as_bytes {value : List Nat} {c : Chunk}
    (hb : ∀ b ∈ value, b < 256) (h : Chunk.try_from value = Outcome.ok c) :
    c.as_bytes = value := by
  unfold Chunk.try_from at h
  split at h
  · exact Outcome.noConfusion h
  split at h
  · exact Outcome.noConfusion h
  · exact Outcome.noConfusion h
  rename_i l0 l1 l2 l3 heq4
  split at h
  · exact Outcome.noConfusion h
  split at h
  · exact Outcome.noConfusion h
  · exact Outcome.noConfusion h
  rename_i t0 t1 t2 t3 heq5
  split at h
  · exact Outcome.noConfusion h
  · exact Outcome.noConfusion h
  rename_i ct heqct
  dsimp only at h
  split at h
  · exact Outcome.noConfusion h
  split at h
  · exact Outcome.noConfusion h
  · exact Outcome.noConfusion h
  rename_i c0 c1 c2 c3 heq6
  split at h
  case isFalse => exact Outcome.noConfusion h
  injection h with h2
  subst h2
  have e4 := sliceToArray4_ok_iff.mp heq4
  have e5 := sliceToArray4_ok_iff.mp heq5
  have e6 := sliceToArray4_ok_iff.mp heq6
  dsimp only at e4 e5 e6
  obtain ⟨hvb, rfl⟩ := tryFrom_ok_iff.mp heqct
  have hls : ∀ y ∈ [l0, l1, l2, l3], y < 256 := by
    intro y hy
    apply hb
    have hyt : y ∈ value.take 4 := by
      rw [e4]
      exact hy
    exact List.mem_of_mem_take hyt
  have hcs : ∀ y ∈ [c0, c1, c2, c3], y < 256 := by
    intro y hy
    apply hb
    have hyd : y ∈ value.drop (8 + u32FromBeBytes l0 l1 l2 l3) := by
      rw [e6]
      exact hy
    exact List.mem_of_mem_drop hyd
  have hrec : value = value.take 4 ++ ((value.drop 4).take 4 ++
      ((value.drop 8).take (u32FromBeBytes l0 l1 l2 l3) ++
        value.drop (8 + u32FromBeBytes l0 l1 l2 l3))) := by
    conv_lhs => rw [← List.take_append_drop 4 value]
    congr 1
    conv_lhs => rw [← List.take_append_drop 4 (value.drop 4)]
    congr 1
    rw [List.drop_drop, show (4 : Nat) + 4 = 8 from rfl]
    conv_lhs => rw [← List.take_append_drop (u32FromBeBytes l0 l1 l2 l3) (value.drop 8)]
    congr 1
    rw [List.drop_drop]
  have f1 : u32ToBeBytes (u32FromBeBytes l0 l1 l2 l3) = value.take 4 := by
    rw [u32ToBeBytes_u32FromBeBytes (hls l0 (by simp)) (hls l1 (by simp)) (hls l2 (by simp))
      (hls l3 (by simp)), ← e4]
  have f3 : u32ToBeBytes (u32FromBeBytes c0 c1 c2 c3) =
      value.drop (8 + u32FromBeBytes l0 l1 l2 l3) := by
    rw [u32ToBeBytes_u32FromBeBytes (hcs c0 (by simp)) (hcs c1 (by simp)) (hcs c2 (by simp))
      (hcs c3 (by simp)), ← e6]
  have f2 : ChunkType.bytes ⟨t0, t1, t2, t3⟩ = (value.drop 4).take 4 := by
    rw [show ChunkType.bytes ⟨t0, t1, t2, t3⟩ = [t0, t1, t2, t3] from rfl]
    exact e5.symm
  show u32ToBeBytes (u32FromBeBytes l0 l1 l2 l3) ++ ChunkType.bytes ⟨t0, t1, t2, t3⟩ ++
      (value.drop 8).take (u32FromBeBytes l0 l1 l2 l3) ++
      u32ToBeBytes (u32FromBeBytes c0 c1 c2 c3) = value
  rw [f1, f2, f3]
  conv_rhs => rw [hrec]
  simp [List.append_assoc]

/-! ## ChunkType display totality -/

theorem toText_of_valid {ct : ChunkType}
    (h : ChunkType.has_valid_bytes ct.b0 ct.b1 ct.b2 ct.b3 = true) :
    ct.toText = Outcome.ok ct.bytes := by
  have hb := has_valid_bytes_bounds h
  have hd : utf8Decode ct.bytes = some ct.bytes := by
    apply utf8Decode_ascii
    intro b hmem
    simp only [ChunkType.bytes, List.mem_cons, List.not_mem_nil, or_false] at hmem
    rcases hmem with rfl | rfl | rfl | rfl <;> omega
  simp [ChunkType.toText, hd]

/-! ## Png append lemmas -/

theorem append_chunk_chunks {p : Png} {iend : Chunk} (c : Chunk)
    (h : p.chunks.getLast? = some iend) :
    (p.append_chunk c).chunks = p.chunks.dropLast ++ [c, iend] := by
  have hdrop : p.chunks.drop (p.chunks.length - 1) = [iend] := by
    rcases p with ⟨l⟩
    induction l with
    | nil => simp at h
    | cons a t ih =>
      cases t with
      | nil =>
        simp only [List.getLast?_singleton, Option.some.injEq] at h
        subst h
        rfl
      | cons b m =>
        rw [List.getLast?_cons_cons] at h
        have h2 := ih h
        simp only [List.length_cons, Nat.add_sub_cancel] at h2 ⊢
        rw [List.drop_succ_cons]
        exact h2
  show p.chunks.take (p.chunks.length - 1) ++ [c] ++ p.chunks.drop (p.chunks.length - 1) =
    p.chunks.dropLast ++ [c, iend]
  rw [hdrop, ← List.dropLast_eq_take]
  simp

theorem append_chunk_getLast {p : Png} {iend : Chunk} (c : Chunk)
    (h : p.chunks.getLast? = some iend) :
    (p.append_chunk c).chunks.getLast? = some iend := by
  rw [append_chunk_chunks c h]
  rw [show p.chunks.dropLast ++ [c, iend] = (p.chunks.dropLast ++ [c]) ++ [iend] by simp]
  exact List.getLast?_concat _

theorem foldl_append_chunk_getLast :
    ∀ (cs : List Chunk) (p : Png) (iend : Chunk), p.chunks.getLast? = some iend →
      (cs.foldl Png.append_chunk p).chunks.getLast? = some iend := by
  intro cs
  induction cs with
  | nil => intro p iend h; simpa using h
  | cons c rest ih =>
    intro p iend h
    simp only [List.foldl_cons]
    exact ih _ _ (append_chunk_getLast c h)

/-! ## Small xor facts -/

theorem xor_two_pow_ne {x j : Nat} : x ^^^ 2 ^ j ≠ x := by
  intro h
  have h2 : x ^^^ 2 ^ j = x ^^^ 0 := by simpa using h
  have h3 : (2 : Nat) ^ j = 0 := xor_left_cancel h2
  have h4 : 0 < (2 : Nat) ^ j := Nat.two_pow_pos j
  omega

theorem xor_lt_256 {x j : Nat} (hx : x < 256) (hj : j < 8) : x ^^^ 2 ^ j < 256 := by
  have e : (256 : Nat) = 2 ^ 8 := by norm_num
  have h1 : (2 : Nat) ^ j < 2 ^ 8 := Nat.pow_lt_pow_right (by omega) hj
  rw [e]
  exact Nat.xor_lt_two_pow (e ▸ hx) h1

theorem has_valid_bytes_iff {b0 b1 b2 b3 : Nat} :
    ChunkType.has_valid_bytes b0 b1 b2 b3 = true ↔
      (((65 ≤ b0 ∧ b0 ≤ 90) ∨ (97 ≤ b0 ∧ b0 ≤ 122)) ∧
       ((65 ≤ b1 ∧ b1 ≤ 90) ∨ (97 ≤ b1 ∧ b1 ≤ 122)) ∧
       ((65 ≤ b2 ∧ b2 ≤ 90) ∨ (97 ≤ b2 ∧ b2 ≤ 122)) ∧
       ((65 ≤ b3 ∧ b3 ≤ 90) ∨ (97 ≤ b3 ∧ b3 ≤ 122))) := by
  simp [ChunkType.has_valid_bytes, ChunkType.is_valid_b, Bool.and_eq_true, Bool.or_eq_true,
    decide_eq_true_eq, and_assoc]

theorem chunk_new_length (ct : ChunkType) (d : List Nat) :
    (Chunk.new ct d).length = d.length % 2 ^ 32 := rfl

/-- The 42-byte payload `"This is where your secret message will be!"` of
the spec's `create` test vector. -/
def secretMsg : List Nat :=
  [84, 104, 105, 115, 32, 105, 115, 32, 119, 104, 101, 114, 101, 32, 121, 111, 117, 114,
   32, 115, 101, 99, 114, 101, 116, 32, 109, 101, 115, 115, 97, 103, 101, 32, 119, 105,
   108, 108, 32, 98, 101, 33]

/-- A payload of exactly 2^32 bytes: `data.len() as u32` wraps to 0. -/
def bigD : List Nat := List.replicate (2 ^ 32) 0

/-! ## Claim theorems -/

/-- C7: the bit-5 property predicates on the spec's test vectors:
"RuSt" is critical, not public, reserved-bit valid and safe to copy;
"Rust" has an invalid reserved bit and is overall invalid; "Ru1t" fails
to construct with InvalidChunkType. -/
theorem c7_bit5_test_vectors :
    ChunkType.from_str [82, 117, 83, 116] = Outcome.ok ⟨82, 117, 83, 116⟩ ∧
    (ChunkType.mk 82 117 83 116).is_critical = true ∧
    (ChunkType.mk 82 117 83 116).is_public = false ∧
    (ChunkType.mk 82 117 83 116).is_reserved_bit_valid = true ∧
    (ChunkType.mk 82 117 83 116).is_safe_to_copy = true ∧
    ChunkType.from_str [82, 117, 115, 116] = Outcome.ok ⟨82, 117, 115, 116⟩ ∧
    (ChunkType.mk 82 117 115 116).is_reserved_bit_valid = false ∧
    (ChunkType.mk 82 117 115 116).is_valid = false ∧
    ChunkType.from_str [82, 117, 49, 116] = Outcome.err PngError.invalidChunkType := by
  decide

/-- C6: `fromBytes` succeeds (returning exactly the given bytes) iff all
four bytes are ASCII letters (65–90 or 97–122), fails with
InvalidChunkType otherwise, and in particular succeeds on "Rust" whose
reserved bit (bit 5 of the third byte, 115) is set. -/
theorem c6_fromBytes_letters (b0 b1 b2 b3 : Nat) :
    (ChunkType.tryFrom b0 b1 b2 b3 = Outcome.ok ⟨b0, b1, b2, b3⟩ ↔
      (((65 ≤ b0 ∧ b0 ≤ 90) ∨ (97 ≤ b0 ∧ b0 ≤ 122)) ∧
       ((65 ≤ b1 ∧ b1 ≤ 90) ∨ (97 ≤ b1 ∧ b1 ≤ 122)) ∧
       ((65 ≤ b2 ∧ b2 ≤ 90) ∨ (97 ≤ b2 ∧ b2 ≤ 122)) ∧
       ((65 ≤ b3 ∧ b3 ≤ 90) ∨ (97 ≤ b3 ∧ b3 ≤ 122)))) ∧
    (ChunkType.tryFrom b0 b1 b2 b3 = Outcome.err PngError.invalidChunkType ↔
      ¬(((65 ≤ b0 ∧ b0 ≤ 90) ∨ (97 ≤ b0 ∧ b0 ≤ 122)) ∧
        ((65 ≤ b1 ∧ b1 ≤ 90) ∨ (97 ≤ b1 ∧ b1 ≤ 122)) ∧
        ((65 ≤ b2 ∧ b2 ≤ 90) ∨ (97 ≤ b2 ∧ b2 ≤ 122)) ∧
        ((65 ≤ b3 ∧ b3 ≤ 90) ∨ (97 ≤ b3 ∧ b3 ≤ 122)))) ∧
    ChunkType.tryFrom 82 117 115 116 = Outcome.ok ⟨82, 117, 115, 116⟩ ∧
    ChunkType.get_fifth_bit 115 = true := by
  by_cases hv : ChunkType.has_valid_bytes b0 b1 b2 b3 = true
  · have hL := has_valid_bytes_iff.mp hv
    refine ⟨?_, ?_, by decide, by decide⟩
    · unfold ChunkType.tryFrom
      rw [if_pos hv]
      exact ⟨fun _ => hL, fun _ => rfl⟩
    · unfold ChunkType.tryFrom
      rw [if_pos hv]
      constructor
      · intro h
        simp at h
      · intro hn
        exact absurd hL hn
  · have hL := fun hl => hv (has_valid_bytes_iff.mpr hl)
    refine ⟨?_, ?_, by decide, by decide⟩
    · unfold ChunkType.tryFrom
      rw [if_neg hv]
      constructor
      · intro h
        simp at h
      · intro hl
        exact absurd hl hL
    · unfold ChunkType.tryFrom
      rw [if_neg hv]
      exact ⟨fun _ => hL, fun _ => rfl⟩

/-- C6 witness: "Rust" (reserved bit set) constructs successfully via the
iff of the claim theorem. -/
theorem c6_witness : ChunkType.tryFrom 82 117 115 116 = Outcome.ok ⟨82, 117, 115, 116⟩ :=
  (c6_fromBytes_letters 82 117 115 116).1.mpr (by decide)

/-- C5 counterexample: a payload of 2^32 bytes yields a record whose
length field is 0, not the payload size — `data.len() as u32` wraps. -/
theorem c5_counterexample :
    (Chunk.new ⟨82, 117, 83, 116⟩ bigD).length ≠ bigD.length := by
  rw [chunk_new_length]
  rw [show bigD.length = 2 ^ 32 from List.length_replicate _ _, Nat.mod_self]
  exact Nat.ne_of_lt (Nat.two_pow_pos 32)

set_option maxRecDepth 100000 in
/-- C5 amended: `create` always succeeds and yields length |d| mod 2^32
(the u32 cast of the payload size), the given type, the given data, and
the CRC-32/ISO-HDLC of type bytes ++ data; the "RuSt" test vector gives
length 42 and crc 2882656334. -/
theorem c5_create_fields (t0 t1 t2 t3 : Nat) (d : List Nat) :
    ((Chunk.new ⟨t0, t1, t2, t3⟩ d).length = d.length % 2 ^ 32 ∧
      (Chunk.new ⟨t0, t1, t2, t3⟩ d).chunk_type = ⟨t0, t1, t2, t3⟩ ∧
      (Chunk.new ⟨t0, t1, t2, t3⟩ d).data = d ∧
      (Chunk.new ⟨t0, t1, t2, t3⟩ d).crc = crc32 ([t0, t1, t2, t3] ++ d)) ∧
    ChunkType.from_str [82, 117, 83, 116] = Outcome.ok ⟨82, 117, 83, 116⟩ ∧
    (Chunk.new ⟨82, 117, 83, 116⟩ secretMsg).length = 42 ∧
    (Chunk.new ⟨82, 117, 83, 116⟩ secretMsg).crc = 2882656334 :=
  ⟨⟨rfl, rfl, rfl, rfl⟩, by decide, by decide, by decide⟩

/-- C10: a chunk whose payload is not valid UTF-8 is constructible via
`create` (here an ancillary "ruSt" chunk with payload [0xFF]), and the
`Display` implementation panics on it instead of returning an error. -/
theorem c10_display_panics :
    (⟨114, 117, 83, 116⟩ : ChunkType).is_critical = false ∧
    utf8Decode (Chunk.new ⟨114, 117, 83, 116⟩ [255]).data = none ∧
    Chunk.display (Chunk.new ⟨114, 117, 83, 116⟩ [255]) = Outcome.panic := by
  decide

/-- C3 counterexample: on the 3-byte string "RuS" `from_str` panics
(`assert_eq!` on the length) instead of returning InvalidChunkType. -/
theorem c3_counterexample :
    ChunkType.from_str [82, 117, 83] = Outcome.panic ∧
    ChunkType.from_str [82, 117, 83] ≠ Outcome.err PngError.invalidChunkType := by
  decide

/-- C3 amended: on a 4-byte string whose byte validation fails `from_str`
returns InvalidChunkType; on a string whose length is not 4 it aborts
(assertion panic) instead of returning an error. -/
theorem c3_fromText_behavior (l : List Nat) (b0 b1 b2 b3 : Nat) :
    (l.length ≠ 4 → ChunkType.from_str l = Outcome.panic) ∧
    (ChunkType.has_valid_bytes b0 b1 b2 b3 = false →
      ChunkType.from_str [b0, b1, b2, b3] = Outcome.err PngError.invalidChunkType) := by
  constructor
  · intro h
    rcases l with _ | ⟨a, _ | ⟨b, _ | ⟨c, _ | ⟨d, _ | ⟨e, r⟩⟩⟩⟩⟩ <;>
      simp_all [ChunkType.from_str]
  · intro h
    simp [ChunkType.from_str, ChunkType.tryFrom, h]

/-- C3 witness: "Ru1t" (digit byte) is rejected with InvalidChunkType and
the 3-byte "RuS" panics. -/
theorem c3_witness :
    ChunkType.from_str [82, 117, 49, 116] = Outcome.err PngError.invalidChunkType ∧
    ChunkType.from_str [82, 117, 83] = Outcome.panic :=
  ⟨(c3_fromText_behavior [82, 117, 49, 116] 82 117 49 116).2 (by decide),
   (c3_fromText_behavior [82, 117, 83] 82 117 49 116).1 (by decide)⟩

/-- C2 counterexample: the buffer `[0,0,0,5, R,u,S,t, 0]` declares a
5-byte payload but holds only 1 byte after the header; parse panics on
the out-of-range slice `value[8..13]` instead of returning
TruncatedInput. -/
theorem c2_counterexample :
    Chunk.try_from [0, 0, 0, 5, 82, 117, 83, 116, 0] = Outcome.panic ∧
    Chunk.try_from [0, 0, 0, 5, 82, 117, 83, 116, 0] ≠
      Outcome.err PngError.truncatedInput := by
  decide

/-- C2 amended: parse returns TruncatedInput exactly from the failing
slice-to-array conversion of the trailer — the buffer holds the 8-byte
header, valid letter type bytes, and the declared payload, but the
remaining trailer is not 4 bytes; buffers too short for the header or
the declared payload abort (slice-index panic) instead. -/
theorem c2_truncated_trailer (l0 l1 l2 l3 t0 t1 t2 t3 : Nat) (rest : List Nat)
    (hv : ChunkType.has_valid_bytes t0 t1 t2 t3 = true)
    (hfit : u32FromBeBytes l0 l1 l2 l3 ≤ rest.length)
    (hne : rest.length ≠ u32FromBeBytes l0 l1 l2 l3 + 4) :
    Chunk.try_from (l0 :: l1 :: l2 :: l3 :: t0 :: t1 :: t2 :: t3 :: rest) =
      Outcome.err PngError.truncatedInput :=
  try_from_trailer_mismatch hv hfit hne

/-- C2 witness: declared length 1, one payload byte, but a 1-byte
trailer. -/
theorem c2_witness :
    Chunk.try_from [0, 0, 0, 1, 82, 117, 83, 116, 9, 9] =
      Outcome.err PngError.truncatedInput :=
  c2_truncated_trailer 0 0 0 1 82 117 83 116 [9, 9] (by decide) (by decide) (by decide)

/-- C8: a ChunkTypeCode constructed by fromBytes (`tryFrom`) or fromText
(`from_str`) has all four bytes ASCII letters, so its display (`toText`)
always succeeds and returns the 4-character string of its bytes — the
UTF-8-decode failure branch is unreachable. -/
theorem c8_toText_total (b0 b1 b2 b3 : Nat) (s : List Nat) (ct : ChunkType)
    (h : ChunkType.tryFrom b0 b1 b2 b3 = Outcome.ok ct ∨
      ChunkType.from_str s = Outcome.ok ct) :
    ct.toText = Outcome.ok ct.bytes := by
  apply toText_of_valid
  rcases h with h | h
  · obtain ⟨hv, rfl⟩ := tryFrom_ok_iff.mp h
    exact hv
  · rcases s with _ | ⟨a, _ | ⟨b, _ | ⟨c, _ | ⟨d, _ | ⟨e, r⟩⟩⟩⟩⟩ <;>
      simp only [ChunkType.from_str] at h <;> try cases h
    obtain ⟨hv, rfl⟩ := tryFrom_ok_iff.mp h
    exact hv

/-- C8 witness: the "RuSt" type code displays as its own bytes. -/
theorem c8_witness :
    (ChunkType.mk 82 117 83 116).toText = Outcome.ok (ChunkType.mk 82 117 83 116).bytes :=
  c8_toText_total 82 117 83 116 [] ⟨82, 117, 83, 116⟩ (Or.inl (by decide))

/-- C9 (spec-modelled container): when the last element is the
terminator, append inserts the new record immediately before it, and any
sequence of appends keeps the terminator as the final element. -/
theorem c9_terminator_preserved (p : Png) (iend c : Chunk) (cs : List Chunk)
    (h : p.chunks.getLast? = some iend) :
    (p.append_chunk c).chunks = p.chunks.dropLast ++ [c, iend] ∧
    (cs.foldl Png.append_chunk p).chunks.getLast? = some iend :=
  ⟨append_chunk_chunks c h, foldl_append_chunk_getLast cs p iend h⟩

/-- C9 witness: the spec's end-to-end example, `[IHDR, tEXt("foo"),
IEND]` with `create("ruSt","secret")` appended. -/
theorem c9_witness :
    ((Png.mk [Chunk.new ⟨73, 72, 68, 82⟩ [], Chunk.new ⟨116, 69, 88, 116⟩ [102, 111, 111],
        Chunk.new ⟨73, 69, 78, 68⟩ []]).append_chunk
          (Chunk.new ⟨114, 117, 83, 116⟩ [115, 101, 99, 114, 101, 116])).chunks =
      [Chunk.new ⟨73, 72, 68, 82⟩ [], Chunk.new ⟨116, 69, 88, 116⟩ [102, 111, 111],
        Chunk.new ⟨73, 69, 78, 68⟩ []].dropLast ++
        [Chunk.new ⟨114, 117, 83, 116⟩ [115, 101, 99, 114, 101, 116],
          Chunk.new ⟨73, 69, 78, 68⟩ []] ∧
    (([Chunk.new ⟨114, 117, 83, 116⟩ [115, 101, 99, 114, 101, 116]].foldl Png.append_chunk
        (Png.mk [Chunk.new ⟨73, 72, 68, 82⟩ [], Chunk.new ⟨116, 69, 88, 116⟩ [102, 111, 111],
          Chunk.new ⟨73, 69, 78, 68⟩ []])).chunks.getLast? =
      some (Chunk.new ⟨73, 69, 78, 68⟩ [])) :=
  c9_terminator_preserved _ _ _ _ rfl

/-- C4: on a well-formed buffer (length field matching the payload,
letter type bytes) parse succeeds iff the recomputed CRC-32/ISO-HDLC of
type bytes ++ payload equals the stored big-endian trailer exactly, and
fails with InvalidCrc otherwise; and flipping any single payload bit of
a buffer whose checksum matched makes parse fail with InvalidCrc. -/
theorem c4_crc_exact (t0 t1 t2 t3 : Nat) (d pre suf : List Nat) (x c0 c1 c2 c3 j : Nat)
    (hv : ChunkType.has_valid_bytes t0 t1 t2 t3 = true)
    (hlend : d.length < 2 ^ 32)
    (hpre : ∀ b ∈ pre, b < 256) (hsuf : ∀ b ∈ suf, b < 256) (hx : x < 256)
    (hlenflip : (pre ++ x :: suf).length < 2 ^ 32) (hj : j < 8) :
    (crc32 ([t0, t1, t2, t3] ++ d) = u32FromBeBytes c0 c1 c2 c3 →
      Chunk.try_from (u32ToBeBytes d.length ++
          ([t0, t1, t2, t3] ++ (d ++ [c0, c1, c2, c3]))) =
        Outcome.ok ⟨d.length, ⟨t0, t1, t2, t3⟩, d, u32FromBeBytes c0 c1 c2 c3⟩) ∧
    (crc32 ([t0, t1, t2, t3] ++ d) ≠ u32FromBeBytes c0 c1 c2 c3 →
      Chunk.try_from (u32ToBeBytes d.length ++
          ([t0, t1, t2, t3] ++ (d ++ [c0, c1, c2, c3]))) =
        Outcome.err PngError.invalidCrc) ∧
    (crc32 ([t0, t1, t2, t3] ++ (pre ++ x :: suf)) = u32FromBeBytes c0 c1 c2 c3 →
      Chunk.try_from (u32ToBeBytes (pre ++ x :: suf).length ++
          ([t0, t1, t2, t3] ++ ((pre ++ (x ^^^ 2 ^ j) :: suf) ++ [c0, c1, c2, c3]))) =
        Outcome.err PngError.invalidCrc) := by
  have hw1 := @try_from_wellformed t0 t1 t2 t3 d c0 c1 c2 c3 hv hlend
  refine ⟨?_, ?_, ?_⟩
  · intro hcrc
    rw [hw1, if_pos hcrc]
  · intro hcrc
    rw [hw1, if_neg hcrc]
  · intro hcrc
    have hlen2 : (pre ++ (x ^^^ 2 ^ j) :: suf).length = (pre ++ x :: suf).length := by
      simp [List.length_append, List.length_cons]
    have hw2 := @try_from_wellformed t0 t1 t2 t3 (pre ++ (x ^^^ 2 ^ j) :: suf) c0 c1 c2 c3
      hv (by rw [hlen2]; exact hlenflip)
    rw [show u32ToBeBytes (pre ++ x :: suf).length =
        u32ToBeBytes (pre ++ (x ^^^ 2 ^ j) :: suf).length by rw [hlen2]]
    rw [hw2]
    have hdiff : crc32 ([t0, t1, t2, t3] ++ (pre ++ (x ^^^ 2 ^ j) :: suf)) ≠
        crc32 ([t0, t1, t2, t3] ++ (pre ++ x :: suf)) := by
      rw [show [t0, t1, t2, t3] ++ (pre ++ (x ^^^ 2 ^ j) :: suf) =
          ([t0, t1, t2, t3] ++ pre) ++ (x ^^^ 2 ^ j) :: suf by simp [List.append_assoc]]
      rw [show [t0, t1, t2, t3] ++ (pre ++ x :: suf) =
          ([t0, t1, t2, t3] ++ pre) ++ x :: suf by simp [List.append_assoc]]
      have htb := has_valid_bytes_bounds hv
      apply crc32_ne_of_single_diff
      · intro b hbm
        rcases List.mem_append.mp hbm with hbm | hbm
        · simp only [List.mem_cons, List.not_mem_nil, or_false] at hbm
          rcases hbm with rfl | rfl | rfl | rfl <;> omega
        · have := hpre b hbm
          omega
      · intro b hbm
        have := hsuf b hbm
        omega
      · have := xor_lt_256 hx hj
        omega
      · omega
      · exact xor_two_pow_ne
    rw [if_neg (fun hexp => hdiff (hexp.trans hcrc.symm))]

/-- C4 witness: the 1-byte payload [0] under type "RuSt" with its true
checksum 0xFDB71703 stored parses successfully, and flipping bit 0 of the
payload byte yields InvalidCrc. -/
theorem c4_witness :
    Chunk.try_from (u32ToBeBytes ([0] : List Nat).length ++
        ([82, 117, 83, 116] ++ ([0] ++ [253, 185, 23, 3]))) =
      Outcome.ok ⟨([0] : List Nat).length, ⟨82, 117, 83, 116⟩, [0],
        u32FromBeBytes 253 185 23 3⟩ ∧
    Chunk.try_from (u32ToBeBytes ([0] : List Nat).length ++
        ([82, 117, 83, 116] ++ ([0 ^^^ 2 ^ 0] ++ [253, 185, 23, 3]))) =
      Outcome.err PngError.invalidCrc := by
  have h := c4_crc_exact 82 117 83 116 [0] [] [] 0 253 185 23 3 0 (by decide) (by decide)
    (by decide) (by decide) (by decide) (by decide) (by decide)
  exact ⟨h.1 (by decide), h.2.2 (by decide)⟩

/-- C1 amended: for letter type codes and payloads of fewer than 2^32
bytes, parsing the serialization of `create(t, d)` returns exactly
`create(t, d)`; and serializing the record of any successful parse
reproduces the input buffer byte for byte. -/
theorem c1_roundtrip (t0 t1 t2 t3 : Nat) (d value : List Nat) (c : Chunk) :
    (ChunkType.has_valid_bytes t0 t1 t2 t3 = true → (∀ b ∈ d, b < 256) →
      d.length < 2 ^ 32 →
      Chunk.try_from (Chunk.new ⟨t0, t1, t2, t3⟩ d).as_bytes =
        Outcome.ok (Chunk.new ⟨t0, t1, t2, t3⟩ d)) ∧
    ((∀ b ∈ value, b < 256) → Chunk.try_from value = Outcome.ok c →
      c.as_bytes = value) := by
  constructor
  · intro hv hd hlen
    have hmod : d.length % 2 ^ 32 = d.length := Nat.mod_eq_of_lt hlen
    have hKlt : crc32 ([t0, t1, t2, t3] ++ d) < 2 ^ 32 := by
      apply crc32_lt
      intro b hbm
      rcases List.mem_append.mp hbm with hbm | hbm
      · have htb := has_valid_bytes_bounds hv
        simp only [List.mem_cons, List.not_mem_nil, or_false] at hbm
        rcases hbm with rfl | rfl | rfl | rfl <;> omega
      · have := hd b hbm
        omega
    have hshape : (Chunk.new ⟨t0, t1, t2, t3⟩ d).as_bytes =
        u32ToBeBytes d.length ++ ([t0, t1, t2, t3] ++ (d ++
          [crc32 ([t0, t1, t2, t3] ++ d) / 2 ^ 24 % 256,
           crc32 ([t0, t1, t2, t3] ++ d) / 2 ^ 16 % 256,
           crc32 ([t0, t1, t2, t3] ++ d) / 2 ^ 8 % 256,
           crc32 ([t0, t1, t2, t3] ++ d) % 256])) := by
      rw [chunk_new_as_bytes, hmod]
      rw [show ChunkType.bytes ⟨t0, t1, t2, t3⟩ = [t0, t1, t2, t3] from rfl]
      rw [show u32ToBeBytes (crc32 ([t0, t1, t2, t3] ++ d)) =
          [crc32 ([t0, t1, t2, t3] ++ d) / 2 ^ 24 % 256,
           crc32 ([t0, t1, t2, t3] ++ d) / 2 ^ 16 % 256,
           crc32 ([t0, t1, t2, t3] ++ d) / 2 ^ 8 % 256,
           crc32 ([t0, t1, t2, t3] ++ d) % 256] from rfl]
      simp [List.append_assoc]
    rw [hshape, try_from_wellformed hv hlen, u32FromBeBytes_u32ToBeBytes hKlt, if_pos rfl]
    show _ = Outcome.ok ⟨d.length % 2 ^ 32, ⟨t0, t1, t2, t3⟩, d,
      crc32 (ChunkType.bytes ⟨t0, t1, t2, t3⟩ ++ d)⟩
    rw [hmod]
    rfl
  · exact fun hbv h => try_from_ok_as_bytes hbv h

/-- C1 witness: round trip of create("RuSt", [7]) and the
parse-then-serialize direction on its serialized bytes. -/
theorem c1_witness :
    Chunk.try_from (Chunk.new ⟨82, 117, 83, 116⟩ [7]).as_bytes =
      Outcome.ok (Chunk.new ⟨82, 117, 83, 116⟩ [7]) :=
  (c1_roundtrip 82 117 83 116 [7] [] (Chunk.new ⟨82, 117, 83, 116⟩ [7])).1
    (by decide) (by decide) (by decide)

/-- C1 counterexample: for the 2^32-byte payload the wrapped length
field (0) makes the serialized buffer reparse fail (the trailer after a
0-byte payload is 2^32 + 4 bytes, not 4), so the round trip is not the
identity for every byte sequence. -/
theorem c1_counterexample :
    Chunk.try_from (Chunk.new ⟨82, 117, 83, 116⟩ bigD).as_bytes ≠
      Outcome.ok (Chunk.new ⟨82, 117, 83, 116⟩ bigD) := by
  have hbig : bigD.length = 2 ^ 32 := List.length_replicate _ _
  have hmod : bigD.length % 2 ^ 32 = 0 := by
    rw [hbig, Nat.mod_self]
  rw [chunk_new_as_bytes, hmod]
  rw [show u32ToBeBytes 0 = [0, 0, 0, 0] from rfl]
  rw [show ChunkType.bytes ⟨82, 117, 83, 116⟩ = [82, 117, 83, 116] from rfl]
  rw [cons8_append]
  have hfit : u32FromBeBytes 0 0 0 0 ≤
      (bigD ++ u32ToBeBytes (crc32 ([82, 117, 83, 116] ++ bigD))).length := by
    rw [show u32FromBeBytes 0 0 0 0 = 0 from rfl]
    exact Nat.zero_le _
  have hne : (bigD ++ u32ToBeBytes (crc32 ([82, 117, 83, 116] ++ bigD))).length ≠
      u32FromBeBytes 0 0 0 0 + 4 := by
    rw [List.length_append, hbig,
      show (u32ToBeBytes (crc32 ([82, 117, 83, 116] ++ bigD))).length = 4 from rfl,
      show u32FromBeBytes 0 0 0 0 = 0 from rfl]
    decide
  rw [try_from_trailer_mismatch (by decide) hfit hne]
  exact fun hcontra => Outcome.noConfusion hcontra

end Pngme
